import Mathlib

/-!
# ConvWinograd (MNN OpenCL backend): tile planning, work-group heuristic, dispatch order

Shallow embedding of `source/backend/opencl/execution/ConvWinograd.cpp`.

* `int` quantities of `onResize` are Lean integers, division is the truncating
  `Int.tdiv` of C++; tensor extents are natural numbers.  Signed overflow is
  undefined in C++, so the integer model describes the overflow-free range.
* `uint32_t` quantities of `getLocalWS` are natural numbers reduced modulo `2^32`
  after every operation, as unsigned arithmetic is defined to do; a division by
  zero makes the function return `none`.
* `onExecute` is embedded as the list of actions it performs on the command queue.
-/

namespace MNN
namespace OpenCL

/-! ## Data model -/

/-- Padding mode of a convolution (`PadMode` of the schema). -/
inductive PadMode where
  | CAFFE
  | VALID
  | SAME
  deriving DecidableEq, Repr

/-- The fields of `Convolution2DCommon` read by `ConvWinograd`; all are `int` in the schema. -/
structure Convolution2DCommon where
  strideX : Int
  strideY : Int
  dilateX : Int
  dilateY : Int
  kernelX : Int
  kernelY : Int
  padX : Int
  padY : Int
  padMode : PadMode
  relu : Bool
  relu6 : Bool
  deriving DecidableEq, Repr

/-- The shape of a `Tensor` (NCHW extents); the data it holds plays no role in planning. -/
structure Tensor where
  batch : Nat
  channel : Nat
  height : Nat
  width : Nat
  deriving DecidableEq, Repr

/-- The spatial unit of the transform, `#define UNIT 2`. -/
def UNIT : Int := 2

/-- The interpolation constant, `#define INTERP 1`. -/
def INTERP : Int := 1

/-- Modelled from the spec: the macro `UP_DIV` of `core/Macro.h` is not among the sources.
The spec reads `UP_DIV(x, y)` as the ceiling of `x / y`; it is embedded as the integer
expression `(x + y - 1) / y` with the truncating division of C++. -/
def UP_DIV (x y : Int) : Int := Int.tdiv (x + y - 1) y

/-! ## `ConvWinograd::valid` -/

/-- `ConvWinograd::valid(common, input, limit)`: two early returns, then the kernel test. -/
def valid (common : Convolution2DCommon) (_input : Tensor) (_limit : Int) : Bool :=
  if common.strideX ≠ 1 ∨ common.strideY ≠ 1 then false
  else if common.dilateX ≠ 1 ∨ common.dilateY ≠ 1 then false
  else (common.kernelX == 3 && common.kernelY == 3) || (common.kernelX == 5 && common.kernelY == 5)

/-! ## `ConvWinograd::onResize` -/

/-- The device limits `getMaxImage2DSize()` read by `onResize`. -/
structure Runtime where
  maxWidth : Int
  maxHeight : Int
  deriving DecidableEq, Repr

/-- The test of the search loop for slice count `i`:
`realWidth < maxWidth && readHeight < maxHeight`. -/
def slicePass (alpha : Int) (channel : Nat) (wUnit hUnit maxWidth maxHeight : Int) (i : Nat) : Bool :=
  let realWidth := UP_DIV channel 4 * 4
  let readHeight := alpha * alpha * UP_DIV (UP_DIV wUnit i * UP_DIV hUnit i) 4
  decide (realWidth < maxWidth) && decide (readHeight < maxHeight)

/-- The bound of the search, `const int maxSlice = 100`. -/
def maxSlice : Nat := 100

/-- The guard of the search, `maxWidth < sourceWidth || maxHeight < sourceHeight`: the
unsliced source image exceeds a device limit. -/
def exceedsLimits (alpha : Int) (channel : Nat) (wUnit hUnit maxWidth maxHeight : Int) : Bool :=
  let sourceWidth := UP_DIV channel 4 * 4
  let sourceHeight := alpha * alpha * UP_DIV (wUnit * hUnit) 4
  decide (maxWidth < sourceWidth) || decide (maxHeight < sourceHeight)

/-- The `sliceNumber` computed by `onResize`: it starts at `1`; when the unsliced source
image exceeds a limit, the loop `for (i = 2; i < maxSlice; ++i)` stores the first `i`
that passes the test and breaks. -/
def planSliceNumber (alpha : Int) (channel : Nat) (wUnit hUnit maxWidth maxHeight : Int) : Nat :=
  if exceedsLimits alpha channel wUnit hUnit maxWidth maxHeight then
    match (List.range' 2 (maxSlice - 2)).find? (slicePass alpha channel wUnit hUnit maxWidth maxHeight) with
    | some i => i
    | none => 1
  else 1

/-- The fit condition in the words of the specification, for comparison with the code:
slice count `s` fits when the source-image width `ceil(inputChannels/4)*4` does not exceed
`maxWidth` and the per-slice intermediate height
`alpha^2 * ceil(ceil(wUnit/s)*ceil(hUnit/s)/4)` does not exceed `maxHeight`. -/
def specFits (alpha : Int) (channel : Nat) (wUnit hUnit maxWidth maxHeight : Int) (s : Nat) : Bool :=
  decide (UP_DIV channel 4 * 4 ≤ maxWidth) &&
    decide (alpha * alpha * UP_DIV (UP_DIV wUnit s * UP_DIV hUnit s) 4 ≤ maxHeight)

/-- The extent `hCount` / `wCount` given to slice `x` of `sliceNumber`: a full piece, except
for the last slice, which gets `unit - (sliceNumber - 1) * piece`. -/
def sliceCount (sliceNumber : Nat) (unit piece : Int) (x : Nat) : Int :=
  if (x : Int) = (sliceNumber : Int) - 1 then unit - ((sliceNumber : Int) - 1) * piece else piece

/-- The offset `offsetData[0]` / `offsetData[1]` of slice `x`: `x * piece`. -/
def sliceOffset (piece : Int) (x : Nat) : Int := (x : Int) * piece

/-- The slot `b*mSliceNumber*mSliceNumber + y*mSliceNumber + x` computed in `onResize`. -/
def resizeIndex (sliceNumber b y x : Nat) : Nat := b * sliceNumber * sliceNumber + y * sliceNumber + x

/-- The per-unit arguments bound in the innermost loop body of `onResize`. -/
structure UnitArgs where
  index : Nat
  batch : Nat
  ySlice : Nat
  xSlice : Nat
  wCount : Int
  hCount : Int
  offsetX : Int
  offsetY : Int
  gemmWidth : Int
  deriving DecidableEq, Repr

/-- What `onResize` derives from the shapes and the device limits. -/
structure Plan where
  alpha : Int
  wUnit : Int
  hUnit : Int
  padX : Int
  padY : Int
  sliceNumber : Nat
  wPiece : Int
  hPiece : Int
  sourceShape : List Int
  destShape : List Int
  total_num : Nat
  units : List UnitArgs
  deriving DecidableEq, Repr

/-- The three nested loops of `onResize` over batch, row slice and column slice. -/
def planUnits (batch sliceNumber : Nat) (wUnit hUnit wPiece hPiece : Int) : List UnitArgs :=
  (List.range batch).flatMap fun b =>
    (List.range sliceNumber).flatMap fun y =>
      let hCount := sliceCount sliceNumber hUnit hPiece y
      (List.range sliceNumber).map fun x =>
        let wCount := sliceCount sliceNumber wUnit wPiece x
        { index := resizeIndex sliceNumber b y x
          batch := b
          ySlice := y
          xSlice := x
          wCount := wCount
          hCount := hCount
          offsetX := sliceOffset wPiece x
          offsetY := sliceOffset hPiece y
          gemmWidth := UP_DIV (wCount * hCount) 4 }

/-- `ConvWinograd::onResize`: the planning arithmetic (kernel compilation, argument
binding and buffer acquisition carry no arithmetic of their own). -/
def onResize (common : Convolution2DCommon) (rt : Runtime) (input output : Tensor) : Plan :=
  let alpha := common.kernelX + UNIT - 1
  let wUnit := UP_DIV output.width UNIT
  let hUnit := UP_DIV output.height UNIT
  let kernelWidthSize := (common.kernelX - 1) * common.dilateX + 1
  let kernelHeightSize := (common.kernelY - 1) * common.dilateY + 1
  let padNeededWidth := ((output.width : Int) - 1) * common.strideX + kernelWidthSize - input.width
  let padNeededHeight := ((output.height : Int) - 1) * common.strideY + kernelHeightSize - input.height
  let padX := if common.padMode = PadMode.SAME then Int.tdiv padNeededWidth 2 else common.padX
  let padY := if common.padMode = PadMode.SAME then Int.tdiv padNeededHeight 2 else common.padY
  let sliceNumber := planSliceNumber alpha input.channel wUnit hUnit rt.maxWidth rt.maxHeight
  let wPiece := UP_DIV wUnit sliceNumber
  let hPiece := UP_DIV hUnit sliceNumber
  { alpha := alpha
    wUnit := wUnit
    hUnit := hUnit
    padX := padX
    padY := padY
    sliceNumber := sliceNumber
    wPiece := wPiece
    hPiece := hPiece
    sourceShape := [alpha * alpha, input.channel, UP_DIV (wPiece * hPiece) 4, 4]
    destShape := [4, wPiece * hPiece, UP_DIV output.channel 4, alpha * alpha]
    total_num := input.batch * sliceNumber * sliceNumber
    units := planUnits input.batch sliceNumber wUnit hUnit wPiece hPiece }

/-- A 3x3 convolution with stride 1, dilation 1 and same-padding. -/
def conv3x3 : Convolution2DCommon :=
  { strideX := 1, strideY := 1, dilateX := 1, dilateY := 1, kernelX := 3, kernelY := 3,
    padX := 0, padY := 0, padMode := PadMode.SAME, relu := false, relu6 := false }

/-! ## `ConvWinograd::getLocalWS`, heuristic branch -/

/-- Reduction of a natural number to a `uint32_t` value. -/
def u32 (n : Nat) : Nat := n % 4294967296

/-- Modelled from the spec: the macro `ROUND_UP` of `core/Macro.h` is not among the sources.
The spec reads it as rounding `x` up to a multiple of `y`; it is embedded as
`(x + y - 1) / y * y` in `uint32_t` arithmetic, the type of its argument in `getLocalWS`. -/
def ROUND_UP (x y : Nat) : Nat := u32 (u32 (u32 (x + y) + 4294967295) / y * y)

/-- The branch of `getLocalWS` compiled without `MNN_OPENCL_LWS_TUNE`.  `cu` is
`deviceComputeUnits()`; `coreNum = cu*2` is computed in `uint32_t`, and `gws[0] / coreNum`
has no value when it is zero. -/
def getLocalWS (gws : Nat × Nat) (maxWorkGroupSize cu : Nat) : Option (List Nat) :=
  let waveSize := 16
  let coreNum := u32 (cu * 2)
  if coreNum = 0 then none
  else
    let groupSize := ROUND_UP (gws.1 / coreNum) waveSize
    let lws0 := max (min maxWorkGroupSize groupSize) 1
    let remain := u32 (u32 (maxWorkGroupSize + 4294967296 - lws0) / waveSize * waveSize)
    let groupSize1 := ROUND_UP (gws.2 / coreNum) waveSize
    let lws1 := max (min (remain / lws0) groupSize1) 1
    some [lws0, lws1, 0, 0]

/-! ## `ConvWinograd::onExecute` -/

/-- The three kernels of one pipeline unit. -/
inductive Stage where
  | sourceTransform
  | matMul
  | destTransform
  deriving DecidableEq, Repr

/-- One call `runKernel2D(kernel[k], gws[g], lws[l], runtime)`: the stage names the three
vectors (`mSourceTransform`/`mGWS_S`/`mLWS_S`, ...), the numbers are the slots read. -/
structure Launch where
  stage : Stage
  kernelSlot : Nat
  gwsSlot : Nat
  lwsSlot : Nat
  deriving DecidableEq, Repr

/-- What `onExecute` does on the queue: a kernel launch, or (with
`ENABLE_OPENCL_TIME_PROFILER`) reading the event's cost and printing it. -/
inductive Action where
  | run (l : Launch)
  | printCost (label : Nat)
  deriving DecidableEq, Repr

/-- The slot `b*mSliceNumber*mSliceNumber + y*mSliceNumber + x` computed in `onExecute`. -/
def executeIndex (sliceNumber b y x : Nat) : Nat := b * sliceNumber * sliceNumber + y * sliceNumber + x

/-- One block of the loop body: launch, then the profiler's print when compiled in. -/
def runStage (profiler : Bool) (stage : Stage) (label index : Nat) : List Action :=
  if profiler then [Action.run ⟨stage, index, index, index⟩, Action.printCost label]
  else [Action.run ⟨stage, index, index, index⟩]

/-- `ConvWinograd::onExecute`: the three nested loops, each body running the three stages. -/
def onExecute (profiler : Bool) (batch sliceNumber : Nat) : List Action :=
  (List.range batch).flatMap fun b =>
    (List.range sliceNumber).flatMap fun y =>
      (List.range sliceNumber).flatMap fun x =>
        let index := executeIndex sliceNumber b y x
        runStage profiler Stage.sourceTransform 0 index ++
          (runStage profiler Stage.matMul 1 index ++
            runStage profiler Stage.destTransform 2 index)

/-- The kernel launches of a trace, in order. -/
def launches (trace : List Action) : List Launch :=
  trace.filterMap fun a =>
    match a with
    | Action.run l => some l
    | Action.printCost _ => none

/-- The launches of pipeline unit `n`: source transform, matrix multiply, destination
transform, each reading slot `n` of its kernel, global-size and local-size vectors. -/
def unitLaunches (n : Nat) : List Launch :=
  [⟨Stage.sourceTransform, n, n, n⟩, ⟨Stage.matMul, n, n, n⟩, ⟨Stage.destTransform, n, n, n⟩]

/-! ## Validity predicate -/

/-- C1: `valid` returns true exactly when both strides and both dilations are 1 and the
kernel is 3x3 or 5x5; the result is the same for every input tensor and every limit. -/
theorem valid_iff (common : Convolution2DCommon) (input : Tensor) (limit : Int) :
    (valid common input limit = true ↔
      (common.strideX = 1 ∧ common.strideY = 1) ∧ (common.dilateX = 1 ∧ common.dilateY = 1) ∧
        ((common.kernelX = 3 ∧ common.kernelY = 3) ∨ (common.kernelX = 5 ∧ common.kernelY = 5))) ∧
      ∀ (input2 : Tensor) (limit2 : Int), valid common input2 limit2 = valid common input limit := by
  refine ⟨?_, fun _ _ => rfl⟩
  unfold valid
  by_cases hs : common.strideX ≠ 1 ∨ common.strideY ≠ 1
  · simp only [hs, if_true]
    constructor
    · intro h; cases h
    · rintro ⟨⟨h1, h2⟩, -⟩
      rcases hs with hs | hs
      · exact absurd h1 hs
      · exact absurd h2 hs
  · by_cases hd : common.dilateX ≠ 1 ∨ common.dilateY ≠ 1
    · simp only [hs, hd, if_true, if_false]
      constructor
      · intro h; cases h
      · rintro ⟨-, ⟨h1, h2⟩, -⟩
        rcases hd with hd | hd
        · exact absurd h1 hd
        · exact absurd h2 hd
    · simp only [hs, hd, if_false]
      push_neg at hs hd
      simp [hs, hd]

/-! ## Ceiling division -/

theorem UP_DIV_natCast (a b : Nat) (hb : 1 ≤ b) : UP_DIV (a : Int) (b : Int) = ((a + b - 1) / b : Nat) := by
  unfold UP_DIV
  have h : (a : Int) + (b : Int) - 1 = ((a + b - 1 : Nat) : Int) := by omega
  rw [h, Int.ofNat_tdiv]

theorem UP_DIV_nonneg (a b : Nat) (hb : 1 ≤ b) : 0 ≤ UP_DIV (a : Int) (b : Int) := by
  rw [UP_DIV_natCast a b hb]
  exact Int.ofNat_nonneg _

theorem UP_DIV_one (a : Nat) : UP_DIV (a : Int) ((1 : Nat) : Int) = a := by
  rw [UP_DIV_natCast a 1 (le_refl 1)]
  simp

theorem le_mul_UP_DIV (a b : Nat) (hb : 1 ≤ b) : (a : Int) ≤ (b : Int) * UP_DIV (a : Int) (b : Int) := by
  rw [UP_DIV_natCast a b hb]
  have h := Nat.lt_div_mul_add (a := a + b - 1) hb
  have h2 : a ≤ b * ((a + b - 1) / b) := by
    rw [Nat.mul_comm]
    omega
  exact_mod_cast h2

theorem UP_DIV_pred_eq (a s : Nat) (hs : 2 ≤ s)
    (h : (a : Int) - ((s : Int) - 1) * UP_DIV (a : Int) (s : Int) < 0) :
    UP_DIV (a : Int) ((s - 1 : Nat) : Int) = UP_DIV (a : Int) (s : Int) := by
  rw [UP_DIV_natCast a s (by omega), UP_DIV_natCast a (s - 1) (by omega)] at *
  obtain ⟨t, rfl⟩ : ∃ t, s = t + 2 := ⟨s - 2, by omega⟩
  have e1 : t + 2 - 1 = t + 1 := by omega
  rw [e1]
  have h' : a < (t + 1) * ((a + (t + 2) - 1) / (t + 2)) := by
    have : (a : Int) < ((t + 1 : Nat) : Int) * (((a + (t + 2) - 1) / (t + 2) : Nat) : Int) := by
      push_cast
      push_cast at h
      linarith
    exact_mod_cast this
  congr 1
  apply Nat.le_antisymm
  · -- ceil(a/(t+1)) ≤ p
    have : a + (t + 1) - 1 < (t + 1) * ((a + (t + 2) - 1) / (t + 2) + 1) := by
      rw [Nat.mul_add]; omega
    have := (Nat.div_lt_iff_lt_mul (by omega : 0 < t + 1)).2 (by rw [Nat.mul_comm]; exact this)
    omega
  · rw [Nat.le_div_iff_mul_le (by omega : 0 < t + 1)]
    have h3 := Nat.div_mul_le_self (a + (t + 2) - 1) (t + 2)
    rw [Nat.mul_add] at h3
    rcases Nat.eq_zero_or_pos ((a + (t + 2) - 1) / (t + 2)) with h0 | h0
    · rw [h0]; simp
    · rw [Nat.mul_add] ; omega

/-! ## The planned slice count and its tiles -/

theorem planSliceNumber_cases (alpha : Int) (channel : Nat) (wUnit hUnit maxWidth maxHeight : Int) :
    planSliceNumber alpha channel wUnit hUnit maxWidth maxHeight = 1 ∨
      (2 ≤ planSliceNumber alpha channel wUnit hUnit maxWidth maxHeight ∧
        planSliceNumber alpha channel wUnit hUnit maxWidth maxHeight < 100 ∧
        slicePass alpha channel wUnit hUnit maxWidth maxHeight
          (planSliceNumber alpha channel wUnit hUnit maxWidth maxHeight) = true ∧
        ∀ j, 2 ≤ j → j < planSliceNumber alpha channel wUnit hUnit maxWidth maxHeight →
          slicePass alpha channel wUnit hUnit maxWidth maxHeight j = false) := by
  unfold planSliceNumber
  split_ifs with hg
  · cases hf : (List.range' 2 (maxSlice - 2)).find? (slicePass alpha channel wUnit hUnit maxWidth maxHeight) with
    | none => left; rfl
    | some i =>
      right
      show 2 ≤ i ∧ i < 100 ∧ slicePass alpha channel wUnit hUnit maxWidth maxHeight i = true ∧
        ∀ j, 2 ≤ j → j < i → slicePass alpha channel wUnit hUnit maxWidth maxHeight j = false
      rw [List.find?_range'_eq_some] at hf
      obtain ⟨hp, hm, hj⟩ := hf
      rw [List.mem_range'_1] at hm
      simp only [maxSlice] at hm
      refine ⟨hm.1, by omega, hp, ?_⟩
      intro j h2 hlt
      simpa using hj j h2 hlt
  · left; rfl

theorem planSliceNumber_pos (alpha : Int) (channel : Nat) (wUnit hUnit maxWidth maxHeight : Int) :
    1 ≤ planSliceNumber alpha channel wUnit hUnit maxWidth maxHeight := by
  rcases planSliceNumber_cases alpha channel wUnit hUnit maxWidth maxHeight with h | h
  · omega
  · omega

theorem sum_sliceCount (S : Nat) (hS : 1 ≤ S) (unit piece : Int) :
    ∑ x in Finset.range S, sliceCount S unit piece x = unit := by
  obtain ⟨n, rfl⟩ : ∃ n, S = n + 1 := ⟨S - 1, by omega⟩
  rw [Finset.sum_range_succ]
  have h1 : ∑ x in Finset.range n, sliceCount (n + 1) unit piece x = n * piece := by
    rw [Finset.sum_congr rfl (g := fun _ => piece)]
    · simp
    · intro x hx
      rw [Finset.mem_range] at hx
      unfold sliceCount
      rw [if_neg]
      push_cast
      omega
  rw [h1]
  unfold sliceCount
  rw [if_pos (by push_cast; ring)]
  push_cast
  ring

theorem slicePass_congr (alpha : Int) (channel : Nat) (wUnit hUnit maxWidth maxHeight : Int) (i j : Nat)
    (hw : UP_DIV wUnit i = UP_DIV wUnit j) (hh : UP_DIV hUnit i = UP_DIV hUnit j) :
    slicePass alpha channel wUnit hUnit maxWidth maxHeight i =
      slicePass alpha channel wUnit hUnit maxWidth maxHeight j := by
  unfold slicePass
  rw [hw, hh]

/-- The remainder slices of the planned slice count are not both negative. -/
theorem planned_last_not_both_neg (alpha : Int) (channel : Nat) (W H : Nat) (maxWidth maxHeight : Int) :
    0 ≤ (W : Int) - (((planSliceNumber alpha channel W H maxWidth maxHeight : Nat) : Int) - 1) *
          UP_DIV W (planSliceNumber alpha channel W H maxWidth maxHeight : Nat) ∨
      0 ≤ (H : Int) - (((planSliceNumber alpha channel W H maxWidth maxHeight : Nat) : Int) - 1) *
          UP_DIV H (planSliceNumber alpha channel W H maxWidth maxHeight : Nat) := by
  rcases planSliceNumber_cases alpha channel W H maxWidth maxHeight with h | ⟨h2, -, hp, hmin⟩
  · left
    rw [h]
    simp
  · generalize planSliceNumber alpha channel W H maxWidth maxHeight = S at h2 hp hmin
    by_contra hcon
    push_neg at hcon
    obtain ⟨hw, hh⟩ := hcon
    have ew := UP_DIV_pred_eq W S h2 hw
    have eh := UP_DIV_pred_eq H S h2 hh
    rcases Nat.lt_or_ge 2 S with h3 | h3
    · have hf := hmin (S - 1) (by omega) (by omega)
      rw [slicePass_congr alpha channel W H maxWidth maxHeight (S - 1) S ew eh, hp] at hf
      cases hf
    · have hS : S = 2 := by omega
      subst hS
      rw [UP_DIV_natCast W 2 (by omega)] at hw
      push_cast at hw
      omega

theorem sliceCount_le_piece (S : Nat) (hS : 1 ≤ S) (W : Nat) (x : Nat) :
    sliceCount S W (UP_DIV W S) x ≤ UP_DIV W S := by
  unfold sliceCount
  split_ifs with h
  · have := le_mul_UP_DIV W S hS
    linarith
  · exact le_refl _

theorem tile_le_capacity (alpha : Int) (channel : Nat) (W H : Nat) (maxWidth maxHeight : Int) (x y : Nat) :
    sliceCount (planSliceNumber alpha channel W H maxWidth maxHeight) W
        (UP_DIV W (planSliceNumber alpha channel W H maxWidth maxHeight : Nat)) x *
      sliceCount (planSliceNumber alpha channel W H maxWidth maxHeight) H
        (UP_DIV H (planSliceNumber alpha channel W H maxWidth maxHeight : Nat)) y ≤
    UP_DIV W (planSliceNumber alpha channel W H maxWidth maxHeight : Nat) *
      UP_DIV H (planSliceNumber alpha channel W H maxWidth maxHeight : Nat) := by
  have hpos := planSliceNumber_pos alpha channel W H maxWidth maxHeight
  have hnb := planned_last_not_both_neg alpha channel W H maxWidth maxHeight
  generalize planSliceNumber alpha channel W H maxWidth maxHeight = S at hpos hnb
  have hwp := UP_DIV_nonneg W S hpos
  have hhp := UP_DIV_nonneg H S hpos
  have hwl := sliceCount_le_piece S hpos W x
  have hhl := sliceCount_le_piece S hpos H y
  have key : 0 ≤ sliceCount S W (UP_DIV W S) x ∨ 0 ≤ sliceCount S H (UP_DIV H S) y := by
    unfold sliceCount
    split_ifs
    · exact hnb
    · right; exact hhp
    · left; exact hwp
    · left; exact hwp
  rcases key with hk | hk
  · rcases le_or_lt 0 (sliceCount S H (UP_DIV H S) y) with h0 | h0
    · exact mul_le_mul hwl hhl h0 hwp
    · have : sliceCount S W (UP_DIV W S) x * sliceCount S H (UP_DIV H S) y ≤ 0 :=
        mul_nonpos_of_nonneg_of_nonpos hk (le_of_lt h0)
      have := mul_nonneg hwp hhp
      linarith
  · rcases le_or_lt 0 (sliceCount S W (UP_DIV W S) x) with h0 | h0
    · exact mul_le_mul hwl hhl hk hwp
    · have : sliceCount S W (UP_DIV W S) x * sliceCount S H (UP_DIV H S) y ≤ 0 :=
        mul_nonpos_of_nonpos_of_nonneg (le_of_lt h0) hk
      have := mul_nonneg hwp hhp
      linarith

theorem sliceCount_zero (S : Nat) (hS : 1 ≤ S) (W : Nat) :
    sliceCount S W (UP_DIV W S) 0 = UP_DIV W S := by
  unfold sliceCount
  split_ifs with h
  · have h1 : S = 1 := by push_cast at h; omega
    subst h1
    rw [UP_DIV_one]
    simp
  · rfl

theorem onResize_wUnit (common : Convolution2DCommon) (rt : Runtime) (input output : Tensor) :
    (onResize common rt input output).wUnit = ((output.width + 2 - 1) / 2 : Nat) := by
  show UP_DIV output.width UNIT = _
  exact UP_DIV_natCast output.width 2 (by omega)

theorem onResize_hUnit (common : Convolution2DCommon) (rt : Runtime) (input output : Tensor) :
    (onResize common rt input output).hUnit = ((output.height + 2 - 1) / 2 : Nat) := by
  show UP_DIV output.height UNIT = _
  exact UP_DIV_natCast output.height 2 (by omega)

theorem natCeilHalf (n : Nat) : (((n + 2 - 1) / 2 : Nat) : Int) = ⌈(n : ℚ) / 2⌉ := by
  symm
  rw [Int.ceil_eq_iff]
  have h1 : 2 * ((n + 2 - 1) / 2) ≤ n + 1 := by omega
  have h2 : n ≤ 2 * ((n + 2 - 1) / 2) := by omega
  have h1' : (2 : ℚ) * ((n + 2 - 1) / 2 : Nat) ≤ n + 1 := by exact_mod_cast h1
  have h2' : (n : ℚ) ≤ 2 * ((n + 2 - 1) / 2 : Nat) := by exact_mod_cast h2
  rw [Int.cast_natCast]
  constructor
  · linarith
  · linarith

theorem onResize_sliceNumber (common : Convolution2DCommon) (rt : Runtime) (input output : Tensor) :
    (onResize common rt input output).sliceNumber =
      planSliceNumber (common.kernelX + UNIT - 1) input.channel
        (((output.width + 2 - 1) / 2 : Nat) : Int) (((output.height + 2 - 1) / 2 : Nat) : Int)
        rt.maxWidth rt.maxHeight := by
  rw [← onResize_wUnit common rt input output, ← onResize_hUnit common rt input output]
  rfl

theorem onResize_wPiece (common : Convolution2DCommon) (rt : Runtime) (input output : Tensor) :
    (onResize common rt input output).wPiece =
      UP_DIV (onResize common rt input output).wUnit (onResize common rt input output).sliceNumber :=
  rfl

theorem onResize_hPiece (common : Convolution2DCommon) (rt : Runtime) (input output : Tensor) :
    (onResize common rt input output).hPiece =
      UP_DIV (onResize common rt input output).hUnit (onResize common rt input output).sliceNumber :=
  rfl

theorem onResize_units (common : Convolution2DCommon) (rt : Runtime) (input output : Tensor) :
    (onResize common rt input output).units =
      planUnits input.batch (onResize common rt input output).sliceNumber
        (onResize common rt input output).wUnit (onResize common rt input output).hUnit
        (onResize common rt input output).wPiece (onResize common rt input output).hPiece :=
  rfl

theorem onResize_tile_le (common : Convolution2DCommon) (rt : Runtime) (input output : Tensor)
    (x y : Nat) :
    sliceCount (onResize common rt input output).sliceNumber
        (onResize common rt input output).wUnit (onResize common rt input output).wPiece x *
      sliceCount (onResize common rt input output).sliceNumber
        (onResize common rt input output).hUnit (onResize common rt input output).hPiece y ≤
    (onResize common rt input output).wPiece * (onResize common rt input output).hPiece := by
  rw [onResize_wPiece, onResize_hPiece, onResize_sliceNumber, onResize_wUnit, onResize_hUnit]
  exact tile_le_capacity _ _ _ _ _ _ x y

theorem mem_planUnits (batch sliceNumber : Nat) (wUnit hUnit wPiece hPiece : Int) (u : UnitArgs)
    (hu : u ∈ planUnits batch sliceNumber wUnit hUnit wPiece hPiece) :
    ∃ b y x, b < batch ∧ y < sliceNumber ∧ x < sliceNumber ∧
      u.index = resizeIndex sliceNumber b y x ∧ u.batch = b ∧ u.ySlice = y ∧ u.xSlice = x ∧
      u.wCount = sliceCount sliceNumber wUnit wPiece x ∧
      u.hCount = sliceCount sliceNumber hUnit hPiece y ∧
      u.offsetX = sliceOffset wPiece x ∧ u.offsetY = sliceOffset hPiece y := by
  unfold planUnits at hu
  simp only [List.mem_flatMap, List.mem_map, List.mem_range] at hu
  obtain ⟨b, hb, y, hy, x, hx, rfl⟩ := hu
  exact ⟨b, y, x, hb, hy, hx, rfl, rfl, rfl, rfl, rfl, rfl, rfl, rfl⟩

theorem planUnits_first (batch sliceNumber : Nat) (wUnit hUnit wPiece hPiece : Int)
    (hb : 0 < batch) (hS : 0 < sliceNumber) :
    ∃ u ∈ planUnits batch sliceNumber wUnit hUnit wPiece hPiece,
      u.wCount = sliceCount sliceNumber wUnit wPiece 0 ∧
        u.hCount = sliceCount sliceNumber hUnit hPiece 0 := by
  refine ⟨UnitArgs.mk (resizeIndex sliceNumber 0 0 0) 0 0 0
      (sliceCount sliceNumber wUnit wPiece 0) (sliceCount sliceNumber hUnit hPiece 0)
      (sliceOffset wPiece 0) (sliceOffset hPiece 0)
      (UP_DIV (sliceCount sliceNumber wUnit wPiece 0 * sliceCount sliceNumber hUnit hPiece 0) 4),
    ?_, rfl, rfl⟩
  unfold planUnits
  simp only [List.mem_flatMap, List.mem_map, List.mem_range]
  exact ⟨0, hb, 0, hS, 0, hS, rfl⟩

/-- C3: `onResize` computes `wUnit = ceil(outputWidth/2)` and `hUnit = ceil(outputHeight/2)`,
and over the planned slices the extents `wCount` sum to `wUnit` and the extents `hCount`
sum to `hUnit`. -/
theorem onResize_extents_sum (common : Convolution2DCommon) (rt : Runtime) (input output : Tensor) :
    (onResize common rt input output).wUnit = ⌈(output.width : ℚ) / 2⌉ ∧
      (onResize common rt input output).hUnit = ⌈(output.height : ℚ) / 2⌉ ∧
      ∑ x in Finset.range (onResize common rt input output).sliceNumber,
          sliceCount (onResize common rt input output).sliceNumber
            (onResize common rt input output).wUnit (onResize common rt input output).wPiece x =
        (onResize common rt input output).wUnit ∧
      ∑ y in Finset.range (onResize common rt input output).sliceNumber,
          sliceCount (onResize common rt input output).sliceNumber
            (onResize common rt input output).hUnit (onResize common rt input output).hPiece y =
        (onResize common rt input output).hUnit := by
  have hpos : 1 ≤ (onResize common rt input output).sliceNumber := by
    rw [onResize_sliceNumber]
    exact planSliceNumber_pos _ _ _ _ _ _
  refine ⟨?_, ?_, ?_, ?_⟩
  · rw [onResize_wUnit, natCeilHalf]
  · rw [onResize_hUnit, natCeilHalf]
  · exact sum_sliceCount _ hpos _ _
  · exact sum_sliceCount _ hpos _ _

/-- C7: the capacity `wPiece * hPiece` that sizes the `Source` and `Dest` scratch tensors is
the maximum of `wCount * hCount` over the planned tiles: no tile of the slice grid and no
planned unit exceeds it, and the first tile attains it. -/
theorem scratch_capacity_is_max_tile (common : Convolution2DCommon) (rt : Runtime)
    (input output : Tensor) :
    (onResize common rt input output).wPiece =
        UP_DIV (onResize common rt input output).wUnit (onResize common rt input output).sliceNumber ∧
      (onResize common rt input output).hPiece =
        UP_DIV (onResize common rt input output).hUnit (onResize common rt input output).sliceNumber ∧
      (onResize common rt input output).sourceShape =
        [(onResize common rt input output).alpha * (onResize common rt input output).alpha,
          (input.channel : Int),
          UP_DIV ((onResize common rt input output).wPiece * (onResize common rt input output).hPiece) 4,
          4] ∧
      (onResize common rt input output).destShape =
        [4, (onResize common rt input output).wPiece * (onResize common rt input output).hPiece,
          UP_DIV (output.channel : Int) 4,
          (onResize common rt input output).alpha * (onResize common rt input output).alpha] ∧
      (∀ x y : Nat,
        sliceCount (onResize common rt input output).sliceNumber
            (onResize common rt input output).wUnit (onResize common rt input output).wPiece x *
          sliceCount (onResize common rt input output).sliceNumber
            (onResize common rt input output).hUnit (onResize common rt input output).hPiece y ≤
        (onResize common rt input output).wPiece * (onResize common rt input output).hPiece) ∧
      (∀ u ∈ (onResize common rt input output).units,
        u.wCount * u.hCount ≤
          (onResize common rt input output).wPiece * (onResize common rt input output).hPiece) ∧
      (0 < (onResize common rt input output).sliceNumber ∧
        sliceCount (onResize common rt input output).sliceNumber
            (onResize common rt input output).wUnit (onResize common rt input output).wPiece 0 *
          sliceCount (onResize common rt input output).sliceNumber
            (onResize common rt input output).hUnit (onResize common rt input output).hPiece 0 =
        (onResize common rt input output).wPiece * (onResize common rt input output).hPiece) ∧
      (0 < input.batch → ∃ u ∈ (onResize common rt input output).units,
        u.wCount * u.hCount =
          (onResize common rt input output).wPiece * (onResize common rt input output).hPiece) := by
  have hpos : 1 ≤ (onResize common rt input output).sliceNumber := by
    rw [onResize_sliceNumber]
    exact planSliceNumber_pos _ _ _ _ _ _
  have hfirst : sliceCount (onResize common rt input output).sliceNumber
        (onResize common rt input output).wUnit (onResize common rt input output).wPiece 0 *
      sliceCount (onResize common rt input output).sliceNumber
        (onResize common rt input output).hUnit (onResize common rt input output).hPiece 0 =
      (onResize common rt input output).wPiece * (onResize common rt input output).hPiece := by
    rw [onResize_wPiece, onResize_hPiece, onResize_wUnit, onResize_hUnit,
      sliceCount_zero _ hpos, sliceCount_zero _ hpos]
  refine ⟨rfl, rfl, rfl, rfl, onResize_tile_le common rt input output, ?_, ⟨hpos, hfirst⟩, ?_⟩
  · intro u hu
    rw [onResize_units] at hu
    obtain ⟨b, y, x, -, -, -, -, -, -, -, hwc, hhc, -, -⟩ := mem_planUnits _ _ _ _ _ _ u hu
    rw [hwc, hhc]
    exact onResize_tile_le common rt input output x y
  · intro hb
    obtain ⟨u, hu, hwc, hhc⟩ := planUnits_first input.batch (onResize common rt input output).sliceNumber
      (onResize common rt input output).wUnit (onResize common rt input output).hUnit
      (onResize common rt input output).wPiece (onResize common rt input output).hPiece hb hpos
    refine ⟨u, ?_, ?_⟩
    · rw [onResize_units]
      exact hu
    · rw [hwc, hhc]
      exact hfirst

/-! ## Work-group heuristic -/

/-- C8 (amended): for every global work size, every `maxWorkGroupSize >= 1` and every
32-bit compute-unit count `cu >= 1` other than `2^31`, the heuristic branch of `getLocalWS`
returns a local size with `lws[0] >= 1`, `lws[1] >= 1` and `lws[0] * lws[1] <= maxWorkGroupSize`. -/
theorem getLocalWS_bounds (gws : Nat × Nat) (maxWorkGroupSize cu : Nat)
    (hmax : 1 ≤ maxWorkGroupSize) (hcu : 1 ≤ cu) (hcu32 : cu < 4294967296)
    (hne : cu ≠ 2147483648) :
    ∃ lws0 lws1, getLocalWS gws maxWorkGroupSize cu = some [lws0, lws1, 0, 0] ∧
      1 ≤ lws0 ∧ 1 ≤ lws1 ∧ lws0 * lws1 ≤ maxWorkGroupSize := by
  have hc : u32 (cu * 2) ≠ 0 := by
    unfold u32
    omega
  unfold getLocalWS
  simp only [hc, if_false]
  refine ⟨_, _, rfl, le_max_right _ _, le_max_right _ _, ?_⟩
  generalize ROUND_UP (gws.1 / u32 (cu * 2)) 16 = g0
  generalize ROUND_UP (gws.2 / u32 (cu * 2)) 16 = g1
  have hl0 : max (min maxWorkGroupSize g0) 1 ≤ maxWorkGroupSize :=
    max_le (min_le_left _ _) hmax
  have hl0pos : 1 ≤ max (min maxWorkGroupSize g0) 1 := le_max_right _ _
  generalize max (min maxWorkGroupSize g0) 1 = l0 at hl0 hl0pos
  have hrem : u32 (u32 (maxWorkGroupSize + 4294967296 - l0) / 16 * 16) ≤ maxWorkGroupSize - l0 := by
    unfold u32
    omega
  generalize u32 (u32 (maxWorkGroupSize + 4294967296 - l0) / 16 * 16) = remain at hrem
  have hq : l0 * (remain / l0) ≤ remain := Nat.mul_div_le remain l0
  rcases Nat.lt_or_ge (min (remain / l0) g1) 1 with h | h
  · rw [max_eq_right (le_of_lt h)]
    omega
  · rw [max_eq_left h]
    have h1 : l0 * min (remain / l0) g1 ≤ l0 * (remain / l0) :=
      Nat.mul_le_mul_left l0 (min_le_left _ _)
    omega

/-! ## Dispatch order -/

theorem flatMap_range_mul {α : Type} (g : Nat → List α) (m n : Nat) :
    ((List.range m).flatMap fun i => (List.range n).flatMap fun j => g (i * n + j)) =
      (List.range (m * n)).flatMap g := by
  induction m with
  | zero => simp
  | succ m ih =>
    rw [List.range_succ, List.flatMap_append, ih, List.flatMap_singleton, Nat.succ_mul,
      List.range_add, List.flatMap_append, List.flatMap_map]

theorem flatMap_unitIndex {α : Type} (g : Nat → List α) (B S : Nat) :
    ((List.range B).flatMap fun b => (List.range S).flatMap fun y => (List.range S).flatMap fun x =>
        g (b * S * S + y * S + x)) =
      (List.range (B * S * S)).flatMap g := by
  have inner : ∀ b : Nat,
      ((List.range S).flatMap fun y => (List.range S).flatMap fun x => g (b * S * S + y * S + x)) =
        (List.range (S * S)).flatMap fun k => g (b * (S * S) + k) := by
    intro b
    rw [← flatMap_range_mul (fun k => g (b * (S * S) + k)) S S]
    simp only [Nat.mul_assoc, Nat.add_assoc]
  simp only [inner]
  rw [flatMap_range_mul g B (S * S), Nat.mul_assoc]

theorem launches_append (l₁ l₂ : List Action) : launches (l₁ ++ l₂) = launches l₁ ++ launches l₂ := by
  unfold launches
  exact List.filterMap_append _ _ _

theorem launches_flatMap {α : Type} (l : List α) (f : α → List Action) :
    launches (l.flatMap f) = l.flatMap fun a => launches (f a) := by
  induction l with
  | nil => rfl
  | cons a l ih => rw [List.flatMap_cons, List.flatMap_cons, launches_append, ih]

theorem launches_runStage (profiler : Bool) (stage : Stage) (label index : Nat) :
    launches (runStage profiler stage label index) = [⟨stage, index, index, index⟩] := by
  cases profiler <;> rfl

theorem launches_onExecute (profiler : Bool) (B S : Nat) :
    launches (onExecute profiler B S) = (List.range (B * S * S)).flatMap unitLaunches := by
  unfold onExecute
  simp only [launches_flatMap, launches_append, launches_runStage, executeIndex]
  exact flatMap_unitIndex unitLaunches B S

theorem getElem?_flatMap_unitLaunches (N n : Nat) (hn : n < N) :
    ((List.range N).flatMap unitLaunches)[3 * n]? = some ⟨Stage.sourceTransform, n, n, n⟩ ∧
      ((List.range N).flatMap unitLaunches)[3 * n + 1]? = some ⟨Stage.matMul, n, n, n⟩ ∧
      ((List.range N).flatMap unitLaunches)[3 * n + 2]? = some ⟨Stage.destTransform, n, n, n⟩ := by
  have hlen : ∀ M : Nat, ((List.range M).flatMap unitLaunches).length = 3 * M := by
    intro M
    induction M with
    | zero => rfl
    | succ M ih =>
      rw [List.range_succ, List.flatMap_append, List.length_append, ih]
      simp [unitLaunches]
      omega
  induction N with
  | zero => omega
  | succ N ih =>
    rw [List.range_succ, List.flatMap_append, List.flatMap_singleton]
    rcases Nat.lt_or_ge n N with h | h
    · obtain ⟨h0, h1, h2⟩ := ih h
      have := hlen N
      refine ⟨?_, ?_, ?_⟩
      · rw [List.getElem?_append_left (by omega)]; exact h0
      · rw [List.getElem?_append_left (by omega)]; exact h1
      · rw [List.getElem?_append_left (by omega)]; exact h2
    · have hN : n = N := by omega
      subst hN
      have := hlen n
      refine ⟨?_, ?_, ?_⟩
      · rw [List.getElem?_append_right (by omega)]
        have e : 3 * n - ((List.range n).flatMap unitLaunches).length = 0 := by omega
        rw [e]; rfl
      · rw [List.getElem?_append_right (by omega)]
        have e : 3 * n + 1 - ((List.range n).flatMap unitLaunches).length = 1 := by omega
        rw [e]; rfl
      · rw [List.getElem?_append_right (by omega)]
        have e : 3 * n + 2 - ((List.range n).flatMap unitLaunches).length = 2 := by omega
        rw [e]; rfl

/-- C9: for every batch count `B` and slice number `S`, with or without time profiling, the
kernel launches of `onExecute` are, for `n = 0, ..., B*S*S - 1` in increasing order,
source-transform, matrix-multiply, destination-transform of unit `n`, each with slot `n` of
its kernel, global-size and local-size vectors; the unit launched in iteration `(b, y, x)` is
`n = b*S*S + y*S + x`; without profiling nothing else is done; and the launches of unit `n`
stand at positions `3n`, `3n+1`, `3n+2`, so the source transform of unit `n+1` comes after
the destination transform of unit `n`. -/
theorem onExecute_launch_order (profiler : Bool) (B S : Nat) :
    launches (onExecute profiler B S) = (List.range (B * S * S)).flatMap unitLaunches ∧
      launches (onExecute profiler B S) =
        ((List.range B).flatMap fun b => (List.range S).flatMap fun y => (List.range S).flatMap fun x =>
          unitLaunches (b * S * S + y * S + x)) ∧
      onExecute false B S = (launches (onExecute profiler B S)).map Action.run ∧
      ∀ n, n < B * S * S →
        (launches (onExecute profiler B S))[3 * n]? = some ⟨Stage.sourceTransform, n, n, n⟩ ∧
        (launches (onExecute profiler B S))[3 * n + 1]? = some ⟨Stage.matMul, n, n, n⟩ ∧
        (launches (onExecute profiler B S))[3 * n + 2]? = some ⟨Stage.destTransform, n, n, n⟩ := by
  refine ⟨launches_onExecute profiler B S, ?_, ?_, ?_⟩
  · rw [launches_onExecute, flatMap_unitIndex]
  · rw [launches_onExecute, ← flatMap_unitIndex, List.map_flatMap]
    unfold onExecute
    simp only [List.map_flatMap, runStage, executeIndex, unitLaunches]
    rfl
  · intro n hn
    rw [launches_onExecute]
    exact getElem?_flatMap_unitLaunches _ n hn

/-! ## Unit slots -/

theorem resizeIndex_lt (B S b y x : Nat) (hb : b < B) (hy : y < S) (hx : x < S) :
    resizeIndex S b y x < B * S * S := by
  unfold resizeIndex
  have h1 : y * S + x < S * S := by
    have : (y + 1) * S ≤ S * S := Nat.mul_le_mul_right S hy
    rw [Nat.add_mul] at this
    omega
  have h2 : (b + 1) * (S * S) ≤ B * (S * S) := Nat.mul_le_mul_right (S * S) hb
  rw [Nat.add_mul] at h2
  rw [Nat.mul_assoc b S S, Nat.mul_assoc B S S]
  omega

theorem resizeIndex_split (S b y x : Nat) (hy : y < S) (hx : x < S) :
    resizeIndex S b y x / (S * S) = b ∧ resizeIndex S b y x % (S * S) / S = y ∧
      resizeIndex S b y x % (S * S) % S = x := by
  have hS : 0 < S := by omega
  have hSS : 0 < S * S := Nat.mul_pos hS hS
  have h1 : y * S + x < S * S := by
    have : (y + 1) * S ≤ S * S := Nat.mul_le_mul_right S hy
    rw [Nat.add_mul] at this
    omega
  have e : resizeIndex S b y x = (y * S + x) + b * (S * S) := by
    unfold resizeIndex
    rw [Nat.mul_assoc]
    omega
  have hmod : resizeIndex S b y x % (S * S) = y * S + x := by
    rw [e, Nat.add_mul_mod_self_right, Nat.mod_eq_of_lt h1]
  refine ⟨?_, ?_, ?_⟩
  · rw [e, Nat.add_mul_div_right _ _ hSS, Nat.div_eq_of_lt h1, Nat.zero_add]
  · rw [hmod, Nat.add_comm, Nat.add_mul_div_right _ _ hS, Nat.div_eq_of_lt hx, Nat.zero_add]
  · rw [hmod, Nat.add_comm, Nat.add_mul_mod_self_right, Nat.mod_eq_of_lt hx]

theorem resizeIndex_surj (B S n : Nat) (hn : n < B * S * S) :
    ∃ b y x, b < B ∧ y < S ∧ x < S ∧ resizeIndex S b y x = n := by
  have hS : 0 < S := by
    rcases Nat.eq_zero_or_pos S with h | h
    · subst h; simp at hn
    · exact h
  have hSS : 0 < S * S := Nat.mul_pos hS hS
  refine ⟨n / (S * S), n % (S * S) / S, n % (S * S) % S, ?_, ?_, Nat.mod_lt _ hS, ?_⟩
  · rw [Nat.div_lt_iff_lt_mul hSS, ← Nat.mul_assoc]
    exact hn
  · rw [Nat.div_lt_iff_lt_mul hS]
    exact Nat.mod_lt _ hSS
  · unfold resizeIndex
    have h1 := Nat.div_add_mod n (S * S)
    have h2 := Nat.div_add_mod (n % (S * S)) S
    rw [Nat.mul_assoc, Nat.mul_comm (n / (S * S)) (S * S), Nat.mul_comm (n % (S * S) / S) S]
    omega

theorem planUnits_index (batch S : Nat) (wUnit hUnit wPiece hPiece : Int) :
    (planUnits batch S wUnit hUnit wPiece hPiece).map (fun u => u.index) =
      List.range (batch * S * S) := by
  unfold planUnits
  simp only [List.map_flatMap, List.map_map]
  have h := flatMap_unitIndex (fun n => [n]) batch S
  rw [List.flatMap_singleton'] at h
  rw [← h]
  simp only [List.map_eq_flatMap, Function.comp, resizeIndex]

/-- C10: for every batch count `B` and slice number `S` the slot map
`(b, y, x) -> b*S*S + y*S + x` on `b < B`, `y < S`, `x < S` is a bijection onto `[0, B*S*S)`;
`onExecute` computes the same slot as `onResize`; and the units planned by `onResize` fill
the `total_num = batch*S*S` slots of the resized vectors in order, each slot exactly once,
under the triple the unit records. -/
theorem unit_index_bijection (common : Convolution2DCommon) (rt : Runtime) (input output : Tensor)
    (B S : Nat) :
    (∀ b y x, b < B → y < S → x < S → resizeIndex S b y x < B * S * S) ∧
      (∀ b y x b' y' x', y < S → x < S → y' < S → x' < S →
        resizeIndex S b y x = resizeIndex S b' y' x' → b = b' ∧ y = y' ∧ x = x') ∧
      (∀ n, n < B * S * S → ∃ b y x, b < B ∧ y < S ∧ x < S ∧ resizeIndex S b y x = n) ∧
      (∀ b y x, executeIndex S b y x = resizeIndex S b y x) ∧
      (onResize common rt input output).total_num =
        input.batch * (onResize common rt input output).sliceNumber *
          (onResize common rt input output).sliceNumber ∧
      (onResize common rt input output).units.map (fun u => u.index) =
        List.range (onResize common rt input output).total_num ∧
      (∀ u ∈ (onResize common rt input output).units,
        u.index < (onResize common rt input output).total_num ∧
          u.batch < input.batch ∧ u.ySlice < (onResize common rt input output).sliceNumber ∧
          u.xSlice < (onResize common rt input output).sliceNumber ∧
          u.index = executeIndex (onResize common rt input output).sliceNumber
            u.batch u.ySlice u.xSlice) := by
  refine ⟨fun b y x => resizeIndex_lt B S b y x, ?_, resizeIndex_surj B S, fun _ _ _ => rfl, rfl, ?_, ?_⟩
  · intro b y x b' y' x' hy hx hy' hx' he
    obtain ⟨h1, h2, h3⟩ := resizeIndex_split S b y x hy hx
    obtain ⟨h1', h2', h3'⟩ := resizeIndex_split S b' y' x' hy' hx'
    rw [he] at h1 h2 h3
    exact ⟨h1.symm.trans h1', h2.symm.trans h2', h3.symm.trans h3'⟩
  · rw [onResize_units]
    exact planUnits_index _ _ _ _ _ _
  · intro u hu
    rw [onResize_units] at hu
    obtain ⟨b, y, x, hb, hy, hx, hi, hub, huy, hux, -⟩ := mem_planUnits _ _ _ _ _ _ u hu
    rw [hub, huy, hux, hi]
    exact ⟨resizeIndex_lt _ _ b y x hb hy hx, hb, hy, hx, rfl⟩

/-! ## Concrete plans -/

/-- C2: on a 3x3 convolution with a 1x4x3074x10 output and image limits 4096x4096 the
planner selects `sliceNumber = 4` with `wUnit = 5` and `wPiece = 2`; the column slices get
offsets `0, 2, 4, 6` and extents `2, 2, 2, -1`: the third tile ends at `6 > wUnit` and the
last tile has a negative extent. -/
theorem onResize_negative_last_tile :
    (onResize conv3x3 ⟨4096, 4096⟩ ⟨1, 4, 3074, 10⟩ ⟨1, 4, 3074, 10⟩).sliceNumber = 4 ∧
      (onResize conv3x3 ⟨4096, 4096⟩ ⟨1, 4, 3074, 10⟩ ⟨1, 4, 3074, 10⟩).wUnit = 5 ∧
      (onResize conv3x3 ⟨4096, 4096⟩ ⟨1, 4, 3074, 10⟩ ⟨1, 4, 3074, 10⟩).wPiece = 2 ∧
      ((onResize conv3x3 ⟨4096, 4096⟩ ⟨1, 4, 3074, 10⟩ ⟨1, 4, 3074, 10⟩).units.take 4).map
          (fun u => (u.xSlice, u.offsetX, u.wCount)) =
        [(0, 0, 2), (1, 2, 2), (2, 4, 2), (3, 6, -1)] := by
  decide

/-- C4: on a 3x3 convolution with a 256x256 output and image limits 16384x16384 a single
slice does not fit, two slices fit in the sense of the specification (the per-slice height
is exactly 16384), and the planner selects `sliceNumber = 3`. -/
theorem onResize_skips_exact_fit :
    specFits 4 4 128 128 16384 16384 1 = false ∧ specFits 4 4 128 128 16384 16384 2 = true ∧
      (onResize conv3x3 ⟨16384, 16384⟩ ⟨1, 4, 256, 256⟩ ⟨1, 4, 256, 256⟩).alpha = 4 ∧
      (onResize conv3x3 ⟨16384, 16384⟩ ⟨1, 4, 256, 256⟩ ⟨1, 4, 256, 256⟩).wUnit = 128 ∧
      (onResize conv3x3 ⟨16384, 16384⟩ ⟨1, 4, 256, 256⟩ ⟨1, 4, 256, 256⟩).hUnit = 128 ∧
      (onResize conv3x3 ⟨16384, 16384⟩ ⟨1, 4, 256, 256⟩ ⟨1, 4, 256, 256⟩).sliceNumber = 3 := by
  decide

/-- C6: on a 3x3 convolution with a 66x66 output, 4096 input channels and image limits
4096x4096 the unsliced height 4368 exceeds `maxHeight`, the source width 4096 does not exceed
`maxWidth` and two slices bring the height down to 1168, yet the planner keeps
`sliceNumber = 1`; with 4 input channels it selects `sliceNumber = 2`.  The same happens on a
1026x4 output (`wUnit = 2`, `hUnit = 513`, unsliced height 4112, two slices 1040). -/
theorem onResize_no_slicing_at_width_limit :
    (4096 : Int) < 4 * 4 * UP_DIV (33 * 33) 4 ∧ UP_DIV 4096 4 * 4 ≤ (4096 : Int) ∧
      4 * 4 * UP_DIV (UP_DIV 33 2 * UP_DIV 33 2) 4 ≤ (4096 : Int) ∧
      (onResize conv3x3 ⟨4096, 4096⟩ ⟨1, 4096, 66, 66⟩ ⟨1, 4, 66, 66⟩).alpha = 4 ∧
      (onResize conv3x3 ⟨4096, 4096⟩ ⟨1, 4096, 66, 66⟩ ⟨1, 4, 66, 66⟩).wUnit = 33 ∧
      (onResize conv3x3 ⟨4096, 4096⟩ ⟨1, 4096, 66, 66⟩ ⟨1, 4, 66, 66⟩).hUnit = 33 ∧
      (onResize conv3x3 ⟨4096, 4096⟩ ⟨1, 4096, 66, 66⟩ ⟨1, 4, 66, 66⟩).sliceNumber = 1 ∧
      (onResize conv3x3 ⟨4096, 4096⟩ ⟨1, 4, 66, 66⟩ ⟨1, 4, 66, 66⟩).sliceNumber = 2 ∧
      (4096 : Int) < 4 * 4 * UP_DIV (2 * 513) 4 ∧
      4 * 4 * UP_DIV (UP_DIV 2 2 * UP_DIV 513 2) 4 ≤ (4096 : Int) ∧
      (onResize conv3x3 ⟨4096, 4096⟩ ⟨1, 4096, 1026, 4⟩ ⟨1, 4, 1026, 4⟩).wUnit = 2 ∧
      (onResize conv3x3 ⟨4096, 4096⟩ ⟨1, 4096, 1026, 4⟩ ⟨1, 4, 1026, 4⟩).hUnit = 513 ∧
      (onResize conv3x3 ⟨4096, 4096⟩ ⟨1, 4096, 1026, 4⟩ ⟨1, 4, 1026, 4⟩).sliceNumber = 1 := by
  decide

/-- C5 (as stated, refuted): with 4100 input channels and image limits 4096x4096 the unsliced
extent exceeds the limits and no slice count in 2..99 fits or passes the search, yet the
planned `sliceNumber` is 1, not the last slice count tried, 99. -/
theorem onResize_fallback_is_not_last_tried :
    exceedsLimits 4 4100 33 33 4096 4096 = true ∧
      (∀ s ∈ List.range' 2 (maxSlice - 2), specFits 4 4100 33 33 4096 4096 s = false ∧
        slicePass 4 4100 33 33 4096 4096 s = false) ∧
      (List.range' 2 (maxSlice - 2)).getLast? = some 99 ∧
      (onResize conv3x3 ⟨4096, 4096⟩ ⟨1, 4100, 66, 66⟩ ⟨1, 4, 66, 66⟩).alpha = 4 ∧
      (onResize conv3x3 ⟨4096, 4096⟩ ⟨1, 4100, 66, 66⟩ ⟨1, 4, 66, 66⟩).wUnit = 33 ∧
      (onResize conv3x3 ⟨4096, 4096⟩ ⟨1, 4100, 66, 66⟩ ⟨1, 4, 66, 66⟩).hUnit = 33 ∧
      (onResize conv3x3 ⟨4096, 4096⟩ ⟨1, 4100, 66, 66⟩ ⟨1, 4, 66, 66⟩).sliceNumber ≠ 99 := by
  decide

theorem slicePass_false_of_not_specFits (alpha : Int) (channel : Nat)
    (wUnit hUnit maxWidth maxHeight : Int) (i : Nat)
    (h : specFits alpha channel wUnit hUnit maxWidth maxHeight i = false) :
    slicePass alpha channel wUnit hUnit maxWidth maxHeight i = false := by
  unfold specFits at h
  unfold slicePass
  simp only [Bool.and_eq_false_iff, decide_eq_false_iff_not, not_le, not_lt] at h ⊢
  rcases h with h | h
  · left; exact le_of_lt h
  · right; exact le_of_lt h

/-- C5 (amended): when the unsliced extent exceeds the limits and no slice count in 2..99
fits the limits (source width at most `maxWidth` and per-slice intermediate height at most
`maxHeight`), `onResize` keeps a single slice, `sliceNumber = 1`. -/
theorem onResize_keeps_single_slice (common : Convolution2DCommon) (rt : Runtime)
    (input output : Tensor)
    (hexceeds : exceedsLimits (onResize common rt input output).alpha input.channel
      (onResize common rt input output).wUnit (onResize common rt input output).hUnit
      rt.maxWidth rt.maxHeight = true)
    (hnone : ∀ s, 2 ≤ s → s < maxSlice →
      specFits (onResize common rt input output).alpha input.channel
        (onResize common rt input output).wUnit (onResize common rt input output).hUnit
        rt.maxWidth rt.maxHeight s = false) :
    (onResize common rt input output).sliceNumber = 1 := by
  have hs : (onResize common rt input output).sliceNumber =
      planSliceNumber (onResize common rt input output).alpha input.channel
        (onResize common rt input output).wUnit (onResize common rt input output).hUnit
        rt.maxWidth rt.maxHeight := rfl
  rw [hs]
  unfold planSliceNumber
  rw [if_pos hexceeds]
  have hf : (List.range' 2 (maxSlice - 2)).find?
      (slicePass (onResize common rt input output).alpha input.channel
        (onResize common rt input output).wUnit (onResize common rt input output).hUnit
        rt.maxWidth rt.maxHeight) = none := by
    rw [List.find?_range'_eq_none]
    intro i h2 hlt
    rw [slicePass_false_of_not_specFits _ _ _ _ _ _ i
      (hnone i h2 (by simp only [maxSlice] at hlt ⊢; omega))]
    rfl
  rw [hf]

/-- C5 (amended), instance: 4100 input channels against image limits 4096x4096 on a 66x66
output exceed the width limit, no slice count in 2..99 fits, and a single slice is kept. -/
theorem onResize_keeps_single_slice_witness :
    exceedsLimits (onResize conv3x3 ⟨4096, 4096⟩ ⟨1, 4100, 66, 66⟩ ⟨1, 4, 66, 66⟩).alpha 4100
        (onResize conv3x3 ⟨4096, 4096⟩ ⟨1, 4100, 66, 66⟩ ⟨1, 4, 66, 66⟩).wUnit
        (onResize conv3x3 ⟨4096, 4096⟩ ⟨1, 4100, 66, 66⟩ ⟨1, 4, 66, 66⟩).hUnit 4096 4096 = true ∧
      (∀ s, 2 ≤ s → s < maxSlice →
        specFits (onResize conv3x3 ⟨4096, 4096⟩ ⟨1, 4100, 66, 66⟩ ⟨1, 4, 66, 66⟩).alpha 4100
          (onResize conv3x3 ⟨4096, 4096⟩ ⟨1, 4100, 66, 66⟩ ⟨1, 4, 66, 66⟩).wUnit
          (onResize conv3x3 ⟨4096, 4096⟩ ⟨1, 4100, 66, 66⟩ ⟨1, 4, 66, 66⟩).hUnit 4096 4096 s =
            false) ∧
      (onResize conv3x3 ⟨4096, 4096⟩ ⟨1, 4100, 66, 66⟩ ⟨1, 4, 66, 66⟩).sliceNumber = 1 :=
  ⟨by decide, by decide,
    onResize_keeps_single_slice conv3x3 ⟨4096, 4096⟩ ⟨1, 4100, 66, 66⟩ ⟨1, 4, 66, 66⟩
      (by decide) (by decide)⟩

/-- C8 (as stated, refuted): with `maxWorkGroupSize = 256` and `2^31` compute units, both at
least 1, `coreNum = cu*2` is zero in 32-bit arithmetic and `getLocalWS` returns no local size. -/
theorem getLocalWS_zero_coreNum :
    1 ≤ 256 ∧ 1 ≤ 2147483648 ∧ getLocalWS (1024, 64) 256 2147483648 = none := by
  decide

/-- C8 (amended), instance: a 1089 x 1 global size with `maxWorkGroupSize = 256` and 4
compute units. -/
theorem getLocalWS_bounds_witness :
    (1 ≤ 256 ∧ 1 ≤ 4 ∧ 4 < 4294967296 ∧ 4 ≠ 2147483648) ∧
      ∃ lws0 lws1, getLocalWS (1089, 1) 256 4 = some [lws0, lws1, 0, 0] ∧
        1 ≤ lws0 ∧ 1 ≤ lws1 ∧ lws0 * lws1 ≤ 256 :=
  ⟨by decide, getLocalWS_bounds (1089, 1) 256 4 (by decide) (by decide) (by decide) (by decide)⟩

end OpenCL
end MNN
